import Mathlib

/-!
# Verification of the juris-ai-guard document-processing pipeline

Shallow embedding of the secure document-processing core of the repository:

* `KMSService` from `supabase/functions/document-processor/index.ts`
  (DEK generation, DEK wrapping/unwrapping under a master key, file
  encryption, hex serialization);
* the `serve` handler of the same file (the orchestrator: queue claim,
  document lookup, storage download, key persistence, encryption,
  ciphertext upload, metadata persistence, status updates, error handling);
* the `processing_queue` schema and `enqueue_document_processing` from the
  migration creating them;
* `AIProviderFactory.create` from the AI RAG edge function.

JavaScript strings are modelled as lists of Unicode code points
(`List Nat`), byte arrays (`Uint8Array`) as lists of naturals below 256.
The WebCrypto AES-GCM primitive is an external platform API; it is
modelled by an executable keyed construction exposing exactly the
interface contract the source relies on (valid AES key sizes, output =
ciphertext followed by a 16-byte tag, decryption inverts encryption and
rejects a wrong tag).  Randomness (`crypto.getRandomValues`) and the
clock (`Date.now()`) are injected as explicit arguments.
-/

namespace JurisGuard

/-! ## Hex serialization (KMSService.uint8ArrayToHex / hexToUint8Array) -/

/-- Char code of a single lowercase hex digit, as produced by JavaScript
`Number.prototype.toString(16)` for values below 16: `0`-`9` are codes
48-57, `a`-`f` are codes 97-102. -/
def toHexDigit (n : Nat) : Nat :=
  if n < 10 then 48 + n else 87 + n

/-- `b.toString(16).padStart(2, '0')` for a byte `b < 256`: one or two hex
digits, left-padded with the `0` character (code 48) to width two. -/
def byteToHex (b : Nat) : List Nat :=
  if b < 16 then [48, toHexDigit b] else [toHexDigit (b / 16), toHexDigit (b % 16)]

/-- `KMSService.uint8ArrayToHex`: map each byte to its two lowercase hex
digits and concatenate. -/
def uint8ArrayToHex (bytes : List Nat) : List Nat :=
  (bytes.map byteToHex).flatten

/-- Value of one hex digit character, as `parseInt(c, 16)` computes it
(accepting both lowercase and uppercase); non-hex characters are mapped
to 0 (the source never feeds them). -/
def hexDigitToNat (c : Nat) : Nat :=
  if 48 ≤ c ∧ c ≤ 57 then c - 48
  else if 97 ≤ c ∧ c ≤ 102 then c - 87
  else if 65 ≤ c ∧ c ≤ 70 then c - 55
  else 0

/-- `KMSService.hexToUint8Array`: consume the hex string two characters at
a time, `bytes[i / 2] = parseInt(hex.substr(i, 2), 16)`; a trailing lone
character is parsed as a one-digit number, mirroring `substr`. -/
def hexToUint8Array : List Nat → List Nat
  | [] => []
  | [a] => [hexDigitToNat a]
  | a :: b :: rest => (hexDigitToNat a * 16 + hexDigitToNat b) :: hexToUint8Array rest

/-- A char code is a lowercase hex digit (what `toString(16)` emits). -/
def isLowerHexChar (c : Nat) : Prop :=
  (48 ≤ c ∧ c ≤ 57) ∨ (97 ≤ c ∧ c ≤ 102)

instance (c : Nat) : Decidable (isLowerHexChar c) := by
  unfold isLowerHexChar; infer_instance

/-! ## UTF-8 (TextEncoder / TextDecoder, external platform APIs) -/

/-- UTF-8 encoding of one code point, as `TextEncoder` produces it. -/
def utf8EncodeChar (c : Nat) : List Nat :=
  if c < 0x80 then [c]
  else if c < 0x800 then [0xC0 + c / 64, 0x80 + c % 64]
  else if c < 0x10000 then [0xE0 + c / 4096, 0x80 + c / 64 % 64, 0x80 + c % 64]
  else [0xF0 + c / 262144, 0x80 + c / 4096 % 64, 0x80 + c / 64 % 64, 0x80 + c % 64]

/-- `TextEncoder.encode`: UTF-8 bytes of a string (string = code points). -/
def utf8Encode (s : List Nat) : List Nat :=
  (s.map utf8EncodeChar).flatten

/-- One-pass UTF-8 decoding: `k` pending continuation bytes of the
current code point, `acc` its bits so far.  Bytes below 0x80 decode to
themselves, lead bytes open a 2/3/4-byte sequence, a stray continuation
byte or truncated sequence yields the replacement character 0xFFFD (the
lossy recovery `TextDecoder` performs by default). -/
def utf8DecodeAux : Nat → Nat → List Nat → List Nat
  | k, _, [] => if k = 0 then [] else [0xFFFD]
  | 0, _, b :: rest =>
      if b < 0x80 then b :: utf8DecodeAux 0 0 rest
      else if b < 0xC0 then 0xFFFD :: utf8DecodeAux 0 0 rest
      else if b < 0xE0 then utf8DecodeAux 1 (b - 0xC0) rest
      else if b < 0xF0 then utf8DecodeAux 2 (b - 0xE0) rest
      else utf8DecodeAux 3 (b - 0xF0) rest
  | k + 1, acc, b :: rest =>
      if k = 0 then (acc * 64 + (b - 0x80)) :: utf8DecodeAux 0 0 rest
      else utf8DecodeAux k (acc * 64 + (b - 0x80)) rest

/-- `TextDecoder.decode`. -/
def utf8Decode (l : List Nat) : List Nat :=
  utf8DecodeAux 0 0 l

/-! ## WebCrypto AES-GCM model (external platform API)

`crypto.subtle.encrypt` / `crypto.subtle.decrypt` with `AES-GCM` are
modelled by an executable keyed stream construction carrying the
interface contract the TypeScript relies on: the raw key must be 16, 24
or 32 bytes (`importKey` rejects other lengths), the output of `encrypt`
is the ciphertext (same length as the plaintext) followed by a 16-byte
authentication tag, and `decrypt` inverts `encrypt` under the same key
and IV while rejecting a payload whose tag does not match. -/

/-- Keystream byte `i` of the modelled AES-GCM cipher for a key/IV pair. -/
def gcmKeystreamByte (key iv : List Nat) (i : Nat) : Nat :=
  (key.foldl (fun a b => (a * 31 + b) % 256) 7
    + iv.foldl (fun a b => (a * 33 + b) % 256) 11 + i * 13) % 256

/-- 16-byte authentication tag of the modelled AES-GCM cipher. -/
def aesGcmTag (key iv ct : List Nat) : List Nat :=
  (List.range 16).map
    (fun i => (ct.foldl (fun a b => (a * 37 + b) % 256) (17 + i)
      + gcmKeystreamByte key iv (i + 4096)) % 256)

/-- Add the keystream to the data bytes, modulo 256, starting at index `i`. -/
def xorStream (key iv : List Nat) : Nat → List Nat → List Nat
  | _, [] => []
  | i, b :: rest => (b + gcmKeystreamByte key iv i) % 256 :: xorStream key iv (i + 1) rest

/-- Subtract the keystream from the data bytes, modulo 256. -/
def unStream (key iv : List Nat) : Nat → List Nat → List Nat
  | _, [] => []
  | i, b :: rest =>
      (b + 256 - gcmKeystreamByte key iv i) % 256 :: unStream key iv (i + 1) rest

/-- Raw AES key lengths `crypto.subtle.importKey` accepts for AES-GCM. -/
def validAesKeyLen (key : List Nat) : Prop :=
  key.length = 16 ∨ key.length = 24 ∨ key.length = 32

instance (key : List Nat) : Decidable (validAesKeyLen key) := by
  unfold validAesKeyLen; infer_instance

/-- `crypto.subtle.encrypt({name: 'AES-GCM', iv}, key, data)`: fails on an
invalid key length, otherwise returns ciphertext plus trailing 16-byte tag. -/
def subtleEncrypt (key iv data : List Nat) : Option (List Nat) :=
  if validAesKeyLen key then
    let ct := xorStream key iv 0 data
    some (ct ++ aesGcmTag key iv ct)
  else none

/-- `crypto.subtle.decrypt({name: 'AES-GCM', iv}, key, payload)`: fails on
an invalid key length, a payload shorter than the tag, or a tag mismatch;
otherwise returns the plaintext. -/
def subtleDecrypt (key iv payload : List Nat) : Option (List Nat) :=
  if validAesKeyLen key ∧ 16 ≤ payload.length then
    let ct := payload.take (payload.length - 16)
    let tag := payload.drop (payload.length - 16)
    if tag = aesGcmTag key iv ct then some (unStream key iv 0 ct) else none
  else none

/-! ## KMSService -/

/-- Char codes of a Lean string, for writing JavaScript string literals. -/
def strCodes (s : String) : List Nat :=
  s.data.map Char.toNat

/-- The fallback master key literal of the `KMSService` constructor. -/
def defaultMasterKey : List Nat :=
  strCodes "default-key-for-dev"

/-- `KMSService` constructor: the master key is
`Deno.env.get('MASTER_ENCRYPTION_KEY') || 'default-key-for-dev'` — the
environment value when it is set and non-empty (JavaScript `||` treats the
empty string as falsy), the literal otherwise. -/
def kmsMasterKey (env : Option (List Nat)) : List Nat :=
  match env with
  | none => defaultMasterKey
  | some [] => defaultMasterKey
  | some k => k

/-- `this.masterKey.padEnd(32, '0').slice(0, 32)`: right-pad with the `0`
character (code 48) to 32 units, then truncate to the first 32. -/
def normalizeMasterKey (mk : List Nat) : List Nat :=
  (mk ++ List.replicate (32 - mk.length) 48).take 32

/-- `KMSService.generateDEK`: 32 bytes from `crypto.getRandomValues`
(injected as `rnd`), returned as their hex string. -/
def generateDEK (rnd : List Nat) : List Nat :=
  uint8ArrayToHex rnd

/-- The wrapped-DEK value `encryptDEK` returns: the source serializes it
as `JSON.stringify` of a two-field object; the exact JSON round-trip of
that object (`JSON.parse` in `decryptDEK` recovering both fields) is
modelled by this structure. -/
structure WrappedDEK where
  encrypted : List Nat
  iv : List Nat
  deriving DecidableEq, Repr

/-- `KMSService.encryptDEK`: UTF-8 encode the DEK string, import the
normalized master key as a raw AES-GCM key, encrypt under a fresh 12-byte
IV (injected as `wrapIv`), and return hex ciphertext plus hex IV.  `none`
models the thrown exception when the key import or encryption fails. -/
def encryptDEK (mk : List Nat) (wrapIv : List Nat) (dek : List Nat) : Option WrappedDEK :=
  let keyBytes := utf8Encode (normalizeMasterKey mk)
  match subtleEncrypt keyBytes wrapIv (utf8Encode dek) with
  | none => none
  | some encrypted =>
      some { encrypted := uint8ArrayToHex encrypted, iv := uint8ArrayToHex wrapIv }

/-- `KMSService.decryptDEK`: parse the wrapped value, import the same
normalized master key, decrypt, and UTF-8 decode the plaintext back to
the DEK hex string. -/
def decryptDEK (mk : List Nat) (w : WrappedDEK) : Option (List Nat) :=
  let keyBytes := utf8Encode (normalizeMasterKey mk)
  match subtleDecrypt keyBytes (hexToUint8Array w.iv) (hexToUint8Array w.encrypted) with
  | none => none
  | some decrypted => some (utf8Decode decrypted)

/-- The `EncryptionResult` interface of the source: ciphertext bytes plus
hex-serialized IV and authentication tag. -/
structure EncryptionResult where
  encryptedData : List Nat
  iv : List Nat
  authTag : List Nat
  deriving DecidableEq, Repr

/-- `KMSService.encryptFile`: import the DEK (hex-decoded) as a raw
AES-GCM key, encrypt the data under a fresh 12-byte IV (injected as
`fileIv`), split the trailing 16 bytes of the AEAD output off as the
authentication tag (`slice(-16)` / `slice(0, -16)`), and hex-serialize IV
and tag. -/
def encryptFile (data : List Nat) (dek : List Nat) (fileIv : List Nat) :
    Option EncryptionResult :=
  match subtleEncrypt (hexToUint8Array dek) fileIv data with
  | none => none
  | some encryptedArray =>
      some { encryptedData := encryptedArray.take (encryptedArray.length - 16)
           , iv := uint8ArrayToHex fileIv
           , authTag := uint8ArrayToHex (encryptedArray.drop (encryptedArray.length - 16)) }

/-! ## Data model

Rows of the tables the document-processor handler touches.  The
`processing_queue` table is declared in the migration
(`status TEXT NOT NULL DEFAULT 'queued' CHECK (status IN ('queued',
'processing', 'completed', 'failed'))`, plus `error_message TEXT`); its
`task_data`, `created_at` and `updated_at` columns are never read by the
handler and are omitted.  The handler also updates `started_at` /
`completed_at` on it, columns the CREATE TABLE does not declare; they are
carried here as the targets of those writes. -/

/-- Row of `public.processing_queue`. -/
structure QueueTask where
  id : Nat
  document_id : Nat
  task_type : String
  status : String
  error_message : Option String
  started_at : Option Nat
  completed_at : Option Nat
  deriving DecidableEq, Repr

/-- `CHECK (status IN ('queued', 'processing', 'completed', 'failed'))`
from the `processing_queue` CREATE TABLE. -/
def taskStatusAllowed (s : String) : Prop :=
  s = "queued" ∨ s = "processing" ∨ s = "completed" ∨ s = "failed"

instance (s : String) : Decidable (taskStatusAllowed s) := by
  unfold taskStatusAllowed; infer_instance

/-- Row of `public.documents`.  The migration under version control
declares `id`/`case_id`/`user_id`/`name`/`path`/`title`; the `file_path`,
`status` and `processed_at` columns are Modelled from the spec: the
migration adding them is not in the repository snapshot, while the upload
flow inserts `file_path`/`status: 'uploaded'` and the handler reads
`file_path` and writes `status`/`processed_at`; shapes follow §3 of the
spec (lifecycle status, storage locator, processed timestamp). -/
structure Document where
  id : Nat
  file_path : String
  status : String
  processed_at : Option Nat
  deriving DecidableEq, Repr

/-- Row of `public.encryption_keys`.  Modelled from the spec: the CREATE
TABLE for this table is not in the repository snapshot; fields follow the
handler's insert (`key_id`, `encrypted_dek`, `created_by`) and §3 of the
spec (opaque wrapped-DEK ciphertext, creator reference).  `created_by` is
an `Option` because the handler reads `queueItem.user_id`, a column the
`processing_queue` table does not have. -/
structure EncryptionKeyRecord where
  id : Nat
  key_id : String
  encrypted_dek : WrappedDEK
  created_by : Option Nat
  deriving DecidableEq, Repr

/-- Row of `public.document_encryption`.  Modelled from the spec: the
CREATE TABLE for this table is not in the repository snapshot; fields
follow the handler's insert and §3 of the spec (document reference, key
record reference, ciphertext locator, nonce, authentication tag). -/
structure DocumentEncryptionMeta where
  document_id : Nat
  encryption_key_id : Nat
  encrypted_path : String
  iv : List Nat
  auth_tag : List Nat
  deriving DecidableEq, Repr

/-- The state the handler reads and writes: the four tables plus the two
storage buckets (`documents` for plaintext uploads, `encrypted-documents`
for ciphertexts), each bucket a path-to-bytes association list. -/
structure DBState where
  queue : List QueueTask
  documents : List Document
  encryption_keys : List EncryptionKeyRecord
  document_encryption : List DocumentEncryptionMeta
  plaintextStore : List (String × List Nat)
  encryptedStore : List (String × List Nat)
  deriving DecidableEq, Repr

/-- `public.enqueue_document_processing`: insert a `processing_queue` row
with the given document/task type; `status` takes the column default
`'queued'`, `error_message`/timestamps are unset.  The DB-generated row
id is injected as `newId`. -/
def enqueue_document_processing (s : DBState) (newId documentId : Nat)
    (taskType : String) : DBState :=
  { s with queue := s.queue ++
      [{ id := newId, document_id := documentId, task_type := taskType
       , status := "queued", error_message := none
       , started_at := none, completed_at := none }] }

/-! ## The document-processor handler -/

/-- Outcome of each fallible external operation whose error the handler
checks, injected per run: `none` is success, `some msg` a failure whose
message the thrown error carries. -/
structure ExtOutcomes where
  download : Option String
  keyInsert : Option String
  upload : Option String
  metaInsert : Option String
  deriving DecidableEq, Repr

/-- The bytes `crypto.getRandomValues` supplies during one run: 32 bytes
for the DEK, 12 for the DEK-wrap IV, 12 for the file-encryption IV. -/
structure Entropy where
  dekRnd : List Nat
  wrapIv : List Nat
  fileIv : List Nat
  deriving DecidableEq, Repr

/-- The HTTP response of one run: the 200 success payload or the 500
error payload carrying `error.message`. -/
inductive Response where
  | ok (encryptedPath : String) (keyId : String)
  | err (msg : String)
  deriving DecidableEq, Repr

/-- `Response.isOk` -/
def Response.isOk : Response → Bool
  | .ok _ _ => true
  | .err _ => false

/-- One run of the handler: its response, the final state, the sequence
of states after each mutating database/storage operation (what a
concurrent external reader can observe mid-run), and whether the
plaintext buffer (`fileBytes.fill(0)`) and the raw DEK were scrubbed
before returning. -/
structure RunResult where
  response : Response
  db : DBState
  trace : List DBState
  plaintextScrubbed : Bool
  dekScrubbed : Bool
  deriving DecidableEq, Repr

/-- The handler's claim write: set the matched queue row to `processing`
and stamp `started_at`; keyed on the row id only, unconditional on the
current status. -/
def claimUpdate (s : DBState) (taskId now : Nat) : DBState :=
  { s with queue := s.queue.map (fun t =>
      if t.id = taskId then { t with status := "processing", started_at := some now }
      else t) }

/-- The handler's completion write: set the queue row to `completed` and
stamp `completed_at`. -/
def completeUpdate (s : DBState) (taskId now : Nat) : DBState :=
  { s with queue := s.queue.map (fun t =>
      if t.id = taskId then { t with status := "completed", completed_at := some now }
      else t) }

/-- The handler's document write: set the document row's status to
`encrypted` and stamp `processed_at`. -/
def docStatusUpdate (s : DBState) (docId now : Nat) : DBState :=
  { s with documents := s.documents.map (fun d =>
      if d.id = docId then { d with status := "encrypted", processed_at := some now }
      else d) }

/-- Storage bucket lookup by path. -/
def storeLookup (store : List (String × List Nat)) (path : String) : Option (List Nat) :=
  (store.find? (fun e => e.1 == path)).map (·.2)

/-- The handler's claim read: select the `processing_queue` row with this
`document_id` and `status = 'pending'` (`.single()` on the filter). -/
def selectClaim (s : DBState) (documentId : Nat) : Option QueueTask :=
  s.queue.find? (fun t => t.document_id == documentId && t.status == "pending")

/-- The `serve` handler of `document-processor/index.ts`, one invocation:
select the queue row for the document with `status = 'pending'`; update
it to `processing`; select the document; download its plaintext; generate
and wrap a DEK; insert the key record; encrypt the file; upload the
ciphertext; insert the encryption metadata; set the document `encrypted`;
set the task `completed`; zero the plaintext buffer.  Every thrown error
lands in the catch block, which only returns the 500 response — it
performs no database write and no scrub.  Randomness, clock and external
failure outcomes are injected; messages of errors raised inside the
database client or WebCrypto are abstracted as fixed non-empty strings. -/
def processDocument (env : Option (List Nat)) (st : DBState) (documentId : Nat)
    (ext : ExtOutcomes) (ent : Entropy) (now : Nat) : RunResult :=
  let masterKey := kmsMasterKey env
  match selectClaim st documentId with
  | none =>
      { response := .err "Queue item not found: no rows returned", db := st
      , trace := [], plaintextScrubbed := false, dekScrubbed := false }
  | some queueItem =>
    let st1 := claimUpdate st queueItem.id now
    match st1.documents.find? (fun d => d.id == documentId) with
    | none =>
        { response := .err "Document not found: no rows returned", db := st1
        , trace := [st1], plaintextScrubbed := false, dekScrubbed := false }
    | some document =>
      match ext.download, storeLookup st1.plaintextStore document.file_path with
      | some m, _ =>
          { response := .err ("File download failed: " ++ m), db := st1
          , trace := [st1], plaintextScrubbed := false, dekScrubbed := false }
      | none, none =>
          { response := .err "File download failed: object not found", db := st1
          , trace := [st1], plaintextScrubbed := false, dekScrubbed := false }
      | none, some fileBytes =>
        let dek := generateDEK ent.dekRnd
        match encryptDEK masterKey ent.wrapIv dek with
        | none =>
            { response := .err "OperationError: DEK wrap failed", db := st1
            , trace := [st1], plaintextScrubbed := false, dekScrubbed := false }
        | some encryptedDEK =>
          let keyId := "key_" ++ toString documentId ++ "_" ++ toString now
          match ext.keyInsert with
          | some m =>
              { response := .err ("Failed to create encryption key: " ++ m), db := st1
              , trace := [st1], plaintextScrubbed := false, dekScrubbed := false }
          | none =>
            let encryptionKey : EncryptionKeyRecord :=
              { id := st1.encryption_keys.length, key_id := keyId
              , encrypted_dek := encryptedDEK, created_by := none }
            let st2 := { st1 with encryption_keys := st1.encryption_keys ++ [encryptionKey] }
            match encryptFile fileBytes dek ent.fileIv with
            | none =>
                { response := .err "OperationError: file encryption failed", db := st2
                , trace := [st1, st2], plaintextScrubbed := false, dekScrubbed := false }
            | some encryptionResult =>
              let encryptedPath :=
                "encrypted/" ++ toString documentId ++ "_" ++ toString now ++ ".enc"
              match ext.upload with
              | some m =>
                  { response := .err ("Encrypted file upload failed: " ++ m), db := st2
                  , trace := [st1, st2], plaintextScrubbed := false, dekScrubbed := false }
              | none =>
                let st3 := { st2 with encryptedStore :=
                  st2.encryptedStore ++ [(encryptedPath, encryptionResult.encryptedData)] }
                match ext.metaInsert with
                | some m =>
                    { response := .err ("Failed to store encryption metadata: " ++ m)
                    , db := st3, trace := [st1, st2, st3]
                    , plaintextScrubbed := false, dekScrubbed := false }
                | none =>
                  let st4 := { st3 with document_encryption := st3.document_encryption ++
                    [{ document_id := documentId, encryption_key_id := encryptionKey.id
                     , encrypted_path := encryptedPath, iv := encryptionResult.iv
                     , auth_tag := encryptionResult.authTag }] }
                  let st5 := docStatusUpdate st4 documentId now
                  let st6 := completeUpdate st5 queueItem.id now
                  { response := .ok encryptedPath keyId, db := st6
                  , trace := [st1, st2, st3, st4, st5, st6]
                  , plaintextScrubbed := true, dekScrubbed := false }

/-- Two workers racing through the handler's claim phase in the
select-select-update-update interleaving: both selects read the state
before either update runs (nothing has written between them), then each
worker that found a row performs the status update keyed on the row id.
Returns the final state and, per worker, whether its claim succeeded
(its select found the row, so it proceeds into processing). -/
def raceClaim (st : DBState) (documentId now : Nat) : DBState × Bool × Bool :=
  let r1 := selectClaim st documentId
  let r2 := selectClaim st documentId
  let st1 := match r1 with
    | some t => claimUpdate st t.id now
    | none => st
  let st2 := match r2 with
    | some t => claimUpdate st1 t.id now
    | none => st1
  (st2, r1.isSome, r2.isSome)

/-- The metadata-before-status invariant: a reader observing a document
with status `encrypted` finds a `document_encryption` row for it. -/
def MetaInv (s : DBState) : Prop :=
  ∀ d ∈ s.documents, d.status = "encrypted" →
    ∃ m ∈ s.document_encryption, m.document_id = d.id

instance (s : DBState) : Decidable (MetaInv s) := by
  unfold MetaInv; infer_instance

/-! ## Concrete fixtures (used by witnesses and counterexamples) -/

/-- An uploaded document. -/
def exDoc : Document :=
  { id := 1, file_path := "documents/a.pdf", status := "uploaded", processed_at := none }

/-- A queue row for `exDoc` whose status matches the handler's `pending`
filter, letting a run proceed past the claim step. -/
def exTaskPending : QueueTask :=
  { id := 7, document_id := 1, task_type := "document_analysis", status := "pending"
  , error_message := none, started_at := none, completed_at := none }

/-- A queue row for `exDoc` as `enqueue_document_processing` creates it:
status `queued`. -/
def exTaskQueued : QueueTask :=
  { exTaskPending with status := "queued" }

/-- State with the pending-status task: the handler can run end to end. -/
def exStPending : DBState :=
  { queue := [exTaskPending], documents := [exDoc], encryption_keys := []
  , document_encryption := [], plaintextStore := [("documents/a.pdf", [10, 20, 30])]
  , encryptedStore := [] }

/-- State with the freshly enqueued (queued-status) task. -/
def exStQueued : DBState :=
  { exStPending with queue := [exTaskQueued] }

/-- State with no queue rows yet (enqueue runs on top of it). -/
def exStEmptyQueue : DBState :=
  { exStPending with queue := [] }

/-- All external operations succeed. -/
def exExtOk : ExtOutcomes :=
  { download := none, keyInsert := none, upload := none, metaInsert := none }

/-- The storage download fails (simulated I/O error). -/
def exExtDownloadFail : ExtOutcomes :=
  { exExtOk with download := some "simulated I/O error" }

/-- The key-record insert fails (after the plaintext buffer is live). -/
def exExtKeyFail : ExtOutcomes :=
  { exExtOk with keyInsert := some "insert rejected" }

/-- Concrete CSPRNG draws for one run. -/
def exEnt : Entropy :=
  { dekRnd := List.range 32, wrapIv := List.range 12
  , fileIv := (List.range 12).map (· + 100) }

/-! ## AIProviderFactory (AI RAG edge function) -/

/-- The two `AIProvider` implementations of the RAG edge function. -/
inductive AIProvider where
  | openAI
  | gemini
  deriving DecidableEq, Repr

/-- ASCII case folding of one character, what
`String.prototype.toLowerCase` does on the provider names involved. -/
def jsToLowerChar (c : Char) : Char :=
  if 'A' ≤ c ∧ c ≤ 'Z' then Char.ofNat (c.toNat + 32) else c

/-- `provider.toLowerCase()` (ASCII range). -/
def jsToLower (s : String) : String :=
  String.mk (s.data.map jsToLowerChar)

/-- `AIProviderFactory.create`: switch on `provider.toLowerCase()`;
`'openai'` and `'gemini'` select their providers, everything else falls
through to the default branch returning the OpenAI provider. -/
def AIProviderFactory.create (provider : String) : AIProvider :=
  if jsToLower provider = "openai" then .openAI
  else if jsToLower provider = "gemini" then .gemini
  else .openAI

/-! ## Lemmas: hex serialization -/

theorem hexDigitToNat_toHexDigit {n : Nat} (h : n < 16) :
    hexDigitToNat (toHexDigit n) = n := by
  unfold hexDigitToNat toHexDigit
  split_ifs <;> omega

theorem byteToHex_length (b : Nat) : (byteToHex b).length = 2 := by
  unfold byteToHex; split <;> rfl

theorem byteToHex_hex {b : Nat} (h : b < 256) :
    ∀ c ∈ byteToHex b, isLowerHexChar c := by
  unfold byteToHex toHexDigit isLowerHexChar
  intro c hc
  split at hc <;> simp only [List.mem_cons, List.mem_singleton] at hc <;>
    rcases hc with rfl | rfl | h' <;> first | omega | (split <;> omega) | cases h'

theorem hexToUint8Array_byteToHex {b : Nat} (h : b < 256) (l : List Nat) :
    hexToUint8Array (byteToHex b ++ l) = b :: hexToUint8Array l := by
  unfold byteToHex
  split
  · show (hexDigitToNat 48 * 16 + hexDigitToNat (toHexDigit b)) :: hexToUint8Array l
      = b :: hexToUint8Array l
    rw [hexDigitToNat_toHexDigit (by omega)]
    have h48 : hexDigitToNat 48 = 0 := by decide
    rw [h48]
    norm_num
  · show (hexDigitToNat (toHexDigit (b / 16)) * 16 + hexDigitToNat (toHexDigit (b % 16)))
      :: hexToUint8Array l = b :: hexToUint8Array l
    rw [hexDigitToNat_toHexDigit (by omega), hexDigitToNat_toHexDigit (by omega)]
    have : b / 16 * 16 + b % 16 = b := by omega
    rw [this]

theorem hexToUint8Array_uint8ArrayToHex {l : List Nat} (h : ∀ b ∈ l, b < 256) :
    hexToUint8Array (uint8ArrayToHex l) = l := by
  induction l with
  | nil => rfl
  | cons b rest ih =>
      have hb : b < 256 := h b (List.mem_cons_self b rest)
      have hrest : ∀ x ∈ rest, x < 256 := fun x hx => h x (List.mem_cons_of_mem b hx)
      show hexToUint8Array (byteToHex b ++ uint8ArrayToHex rest) = b :: rest
      rw [hexToUint8Array_byteToHex hb, ih hrest]

theorem uint8ArrayToHex_length (l : List Nat) :
    (uint8ArrayToHex l).length = 2 * l.length := by
  induction l with
  | nil => rfl
  | cons b rest ih =>
      show (byteToHex b ++ uint8ArrayToHex rest).length = 2 * (b :: rest).length
      rw [List.length_append, byteToHex_length, ih, List.length_cons]
      omega

theorem uint8ArrayToHex_hex {l : List Nat} (h : ∀ b ∈ l, b < 256) :
    ∀ c ∈ uint8ArrayToHex l, isLowerHexChar c := by
  intro c hc
  simp only [uint8ArrayToHex, List.mem_flatten, List.mem_map] at hc
  obtain ⟨_, ⟨b, hb, rfl⟩, hcb⟩ := hc
  exact byteToHex_hex (h b hb) c hcb

theorem isLowerHexChar_ascii {c : Nat} (h : isLowerHexChar c) : c < 128 := by
  rcases h with ⟨_, _⟩ | ⟨_, _⟩ <;> omega

theorem hexDigitToNat_lt (c : Nat) : hexDigitToNat c < 16 := by
  unfold hexDigitToNat; split <;> [omega; split <;> [omega; split <;> omega]]

theorem hexToUint8Array_lt256 (l : List Nat) : ∀ b ∈ hexToUint8Array l, b < 256 := by
  induction l using hexToUint8Array.induct with
  | case1 => intro b hb; cases hb
  | case2 a =>
      intro b hb
      simp only [hexToUint8Array, List.mem_singleton] at hb
      subst hb; have := hexDigitToNat_lt a; omega
  | case3 a b rest ih =>
      intro x hx
      simp only [hexToUint8Array, List.mem_cons] at hx
      rcases hx with rfl | hx
      · have := hexDigitToNat_lt a; have := hexDigitToNat_lt b; omega
      · exact ih x hx

theorem hexToUint8Array_length (l : List Nat) :
    (hexToUint8Array l).length = (l.length + 1) / 2 := by
  induction l using hexToUint8Array.induct with
  | case1 => rfl
  | case2 a => simp [hexToUint8Array]
  | case3 a b rest ih => simp only [hexToUint8Array, List.length_cons]; omega

/-! ## Lemmas: UTF-8 -/

theorem utf8Encode_ascii {s : List Nat} (h : ∀ c ∈ s, c < 128) :
    utf8Encode s = s := by
  induction s with
  | nil => rfl
  | cons c rest ih =>
      have hc : c < 128 := h c (List.mem_cons_self c rest)
      simp only [utf8Encode, List.map_cons, List.flatten_cons] at *
      rw [ih (fun x hx => h x (List.mem_cons_of_mem c hx))]
      unfold utf8EncodeChar
      rw [if_pos hc]
      rfl

theorem utf8EncodeChar_ne_nil (c : Nat) : utf8EncodeChar c ≠ [] := by
  unfold utf8EncodeChar
  split <;> [skip; split <;> [skip; split]] <;> simp

theorem length_le_utf8Encode (s : List Nat) : s.length ≤ (utf8Encode s).length := by
  induction s with
  | nil => simp [utf8Encode]
  | cons c rest ih =>
      have h1 : 0 < (utf8EncodeChar c).length :=
        List.length_pos.mpr (utf8EncodeChar_ne_nil c)
      simp only [utf8Encode, List.map_cons, List.flatten_cons, List.length_append,
        List.length_cons]
      simp only [utf8Encode] at ih
      omega

theorem utf8Decode_ascii {l : List Nat} (h : ∀ b ∈ l, b < 128) :
    utf8Decode l = l := by
  unfold utf8Decode
  induction l with
  | nil => rfl
  | cons b rest ih =>
      have hb : b < 128 := h b (List.mem_cons_self b rest)
      simp only [utf8DecodeAux, if_pos hb]
      rw [ih (fun x hx => h x (List.mem_cons_of_mem b hx))]

/-! ## Lemmas: the AES-GCM model -/

theorem gcmKeystreamByte_lt (key iv : List Nat) (i : Nat) :
    gcmKeystreamByte key iv i < 256 :=
  Nat.mod_lt _ (by omega)

theorem xorStream_length (key iv : List Nat) (i : Nat) (d : List Nat) :
    (xorStream key iv i d).length = d.length := by
  induction d generalizing i with
  | nil => rfl
  | cons b rest ih => simp only [xorStream, List.length_cons, ih]

theorem xorStream_lt256 (key iv : List Nat) (i : Nat) (d : List Nat) :
    ∀ b ∈ xorStream key iv i d, b < 256 := by
  induction d generalizing i with
  | nil => intro b hb; cases hb
  | cons x rest ih =>
      intro b hb
      simp only [xorStream, List.mem_cons] at hb
      rcases hb with rfl | hb
      · exact Nat.mod_lt _ (by omega)
      · exact ih (i + 1) b hb

theorem unStream_xorStream (key iv : List Nat) (i : Nat) {d : List Nat}
    (h : ∀ b ∈ d, b < 256) : unStream key iv i (xorStream key iv i d) = d := by
  induction d generalizing i with
  | nil => rfl
  | cons x rest ih =>
      have hx : x < 256 := h x (List.mem_cons_self x rest)
      have hk : gcmKeystreamByte key iv i < 256 := gcmKeystreamByte_lt key iv i
      simp only [xorStream, unStream]
      have hhead : ((x + gcmKeystreamByte key iv i) % 256 + 256 - gcmKeystreamByte key iv i) % 256
          = x := by omega
      rw [hhead, ih (i + 1) (fun b hb => h b (List.mem_cons_of_mem x hb))]

theorem aesGcmTag_length (key iv ct : List Nat) : (aesGcmTag key iv ct).length = 16 := by
  simp [aesGcmTag]

theorem aesGcmTag_lt256 (key iv ct : List Nat) : ∀ b ∈ aesGcmTag key iv ct, b < 256 := by
  intro b hb
  simp only [aesGcmTag, List.mem_map, List.mem_range] at hb
  obtain ⟨i, _, rfl⟩ := hb
  exact Nat.mod_lt _ (by omega)

theorem subtleEncrypt_eq_some {key iv data : List Nat} (h : validAesKeyLen key) :
    subtleEncrypt key iv data
      = some (xorStream key iv 0 data ++ aesGcmTag key iv (xorStream key iv 0 data)) := by
  simp [subtleEncrypt, h]

theorem subtleEncrypt_length {key iv data out : List Nat} (h : validAesKeyLen key)
    (hout : subtleEncrypt key iv data = some out) :
    out.length = data.length + 16 := by
  rw [subtleEncrypt_eq_some h] at hout
  cases hout
  rw [List.length_append, xorStream_length, aesGcmTag_length]

theorem subtleEncrypt_lt256 {key iv data out : List Nat} (h : validAesKeyLen key)
    (hout : subtleEncrypt key iv data = some out) : ∀ b ∈ out, b < 256 := by
  rw [subtleEncrypt_eq_some h] at hout
  cases hout
  intro b hb
  rcases List.mem_append.mp hb with hb | hb
  · exact xorStream_lt256 key iv 0 data b hb
  · exact aesGcmTag_lt256 key iv _ b hb

theorem subtleDecrypt_append_tag {key iv : List Nat} (h : validAesKeyLen key)
    (ct : List Nat) :
    subtleDecrypt key iv (ct ++ aesGcmTag key iv ct) = some (unStream key iv 0 ct) := by
  unfold subtleDecrypt
  have h16 : (aesGcmTag key iv ct).length = 16 := aesGcmTag_length key iv ct
  have hlen : (ct ++ aesGcmTag key iv ct).length = ct.length + 16 := by
    rw [List.length_append, h16]
  rw [if_pos ⟨h, by omega⟩]
  have hsub : (ct ++ aesGcmTag key iv ct).length - 16 = ct.length := by omega
  rw [hsub, List.take_left, List.drop_left, if_pos rfl]

theorem subtleDecrypt_subtleEncrypt {key iv data out : List Nat} (h : validAesKeyLen key)
    (hd : ∀ b ∈ data, b < 256) (hout : subtleEncrypt key iv data = some out) :
    subtleDecrypt key iv out = some data := by
  rw [subtleEncrypt_eq_some h] at hout
  cases hout
  rw [subtleDecrypt_append_tag h, unStream_xorStream key iv 0 hd]

/-! ## Lemmas: master-key normalization -/

theorem normalizeMasterKey_length (mk : List Nat) :
    (normalizeMasterKey mk).length = 32 := by
  unfold normalizeMasterKey
  rw [List.length_take, List.length_append, List.length_replicate]
  omega

theorem normalizeMasterKey_ascii {mk : List Nat} (h : ∀ c ∈ mk, c < 128) :
    ∀ c ∈ normalizeMasterKey mk, c < 128 := by
  intro c hc
  have hc2 := List.mem_of_mem_take hc
  rcases List.mem_append.mp hc2 with hc3 | hc3
  · exact h c hc3
  · have := List.eq_of_mem_replicate hc3
    omega

/-! ## Lemmas: the handler's state writes -/

theorem append_ne_empty_left {p : String} (s : String) (hp : p.length ≠ 0) :
    p ++ s ≠ "" := by
  intro h
  have h2 := congrArg String.length h
  simp [String.length_append] at h2
  omega

theorem claimUpdate_queue_prop {st : DBState} {tid now : Nat}
    (hq_err : ∀ t ∈ st.queue, t.error_message = none)
    (hq_st : ∀ t ∈ st.queue, t.status ≠ "failed") :
    ∀ t' ∈ (claimUpdate st tid now).queue,
      t'.error_message = none ∧ t'.status ≠ "failed" := by
  intro t' ht'
  simp only [claimUpdate, List.mem_map] at ht'
  obtain ⟨t, ht, rfl⟩ := ht'
  split
  · exact ⟨hq_err t ht, by simp⟩
  · exact ⟨hq_err t ht, hq_st t ht⟩

theorem MetaInv_meta_append {s : DBState} (xs : List DocumentEncryptionMeta)
    (h : MetaInv s) :
    MetaInv { s with document_encryption := s.document_encryption ++ xs } := by
  intro d hd hst
  obtain ⟨m, hm, hmd⟩ := h d hd hst
  exact ⟨m, List.mem_append_left _ hm, hmd⟩

theorem MetaInv_docStatusUpdate {s : DBState} {docId now : Nat}
    (h : MetaInv s) (hm : ∃ m ∈ s.document_encryption, m.document_id = docId) :
    MetaInv (docStatusUpdate s docId now) := by
  intro d' hd' hst
  simp only [docStatusUpdate, List.mem_map] at hd'
  obtain ⟨d, hd, rfl⟩ := hd'
  by_cases hid : d.id = docId
  · obtain ⟨m, hmm, hmd⟩ := hm
    rw [if_pos hid]
    exact ⟨m, hmm, hmd.trans hid.symm⟩
  · rw [if_neg hid] at hst ⊢
    exact h d hd hst

/-! ## Claims C1-C5: the orchestrator -/

/-- C2 (the code against its own schema): on any state whose queue rows
all satisfy the `processing_queue` CHECK constraint, a freshly enqueued
task sits there with the default status `queued`, yet the handler — which
filters the claim select on `status = 'pending'`, a value the constraint
does not even admit — finds nothing, returns the queue-item-not-found
error, and leaves the whole state untouched: the task is never moved to
`processing` and `started_at` is never set. -/
theorem C2_queued_task_never_claimed (env : Option (List Nat)) (st : DBState)
    (newId documentId : Nat) (taskType : String) (ext : ExtOutcomes) (ent : Entropy)
    (now : Nat) (hschema : ∀ t ∈ st.queue, taskStatusAllowed t.status) :
    (∃ t ∈ (enqueue_document_processing st newId documentId taskType).queue,
      t.document_id = documentId ∧ t.status = "queued" ∧ t.started_at = none) ∧
    (processDocument env (enqueue_document_processing st newId documentId taskType)
      documentId ext ent now).response = .err "Queue item not found: no rows returned" ∧
    (processDocument env (enqueue_document_processing st newId documentId taskType)
      documentId ext ent now).db
      = enqueue_document_processing st newId documentId taskType := by
  have hfind : selectClaim (enqueue_document_processing st newId documentId taskType)
      documentId = none := by
    unfold selectClaim enqueue_document_processing
    rw [List.find?_eq_none]
    intro t ht
    simp only [List.mem_append, List.mem_singleton] at ht
    rcases ht with ht | rfl
    · rcases hschema t ht with h | h | h | h <;> simp [h]
    · simp
  refine ⟨?_, ?_, ?_⟩
  · refine ⟨{ id := newId, document_id := documentId, task_type := taskType
            , status := "queued", error_message := none, started_at := none
            , completed_at := none }, ?_, rfl, rfl, rfl⟩
    simp [enqueue_document_processing]
  · unfold processDocument
    rw [hfind]
  · unfold processDocument
    rw [hfind]

/-- C2 evaluated at a concrete failing input: document 1 with a task
enqueued by `enqueue_document_processing`, every external operation able
to succeed — the run still fails at the claim step and changes nothing. -/
theorem C2_witness :
    (∀ t ∈ exStEmptyQueue.queue, taskStatusAllowed t.status) ∧
    (∃ t ∈ (enqueue_document_processing exStEmptyQueue 7 1 "document_analysis").queue,
      t.document_id = 1 ∧ t.status = "queued" ∧ t.started_at = none) ∧
    (processDocument none (enqueue_document_processing exStEmptyQueue 7 1 "document_analysis")
      1 exExtOk exEnt 555).response = .err "Queue item not found: no rows returned" ∧
    (processDocument none (enqueue_document_processing exStEmptyQueue 7 1 "document_analysis")
      1 exExtOk exEnt 555).db
      = enqueue_document_processing exStEmptyQueue 7 1 "document_analysis" := by
  have h := C2_queued_task_never_claimed none exStEmptyQueue 7 1 "document_analysis"
    exExtOk exEnt 555 (by decide)
  exact ⟨by decide, h.1, h.2.1, h.2.2⟩

/-- C3 amended: the claim step is a read followed by a status-blind
write, not a compare-and-set.  For the document's single task: when its
status is `queued` (the only status enqueue produces) neither of two
racing callers claims it — both selects miss, the state is unchanged;
when its status matches the handler's `pending` filter, the
select-select-update-update interleaving lets BOTH callers claim it and
proceed, because each update is keyed on the row id alone and is not
conditioned on the current status. -/
theorem C3_claim_is_read_then_write (st : DBState) (documentId now : Nat)
    (t : QueueTask) (hq : st.queue = [t]) (hdoc : t.document_id = documentId) :
    (t.status = "queued" →
      (raceClaim st documentId now).2.1 = false ∧
      (raceClaim st documentId now).2.2 = false ∧
      (raceClaim st documentId now).1 = st) ∧
    (t.status = "pending" →
      (raceClaim st documentId now).2.1 = true ∧
      (raceClaim st documentId now).2.2 = true ∧
      ∀ t' ∈ (raceClaim st documentId now).1.queue, t'.status = "processing") := by
  constructor
  · intro hst
    have hsel : selectClaim st documentId = none := by
      unfold selectClaim
      rw [hq, List.find?_eq_none]
      intro x hx
      rw [List.mem_singleton] at hx
      subst hx
      simp [hst]
    simp [raceClaim, hsel]
  · intro hst
    have hsel : selectClaim st documentId = some t := by
      unfold selectClaim
      rw [hq]
      simp [List.find?, hdoc, hst]
    simp only [raceClaim, hsel, Option.isSome_some]
    refine ⟨by trivial, by trivial, ?_⟩
    intro t' ht'
    simp only [claimUpdate, hq, List.map_cons, List.map_nil, List.mem_singleton] at ht'
    subst ht'
    simp

/-- C3 counterexample: with the schema-valid `queued` task neither of two
racing callers moves it out of `queued` (zero claims, not exactly one);
with the `pending` status the handler actually filters on, both callers
claim the task (two claims, not exactly one, and the second caller never
observes the task as already claimed). -/
theorem C3_counterexample :
    ((raceClaim exStQueued 1 555).2.1 = false ∧
      (raceClaim exStQueued 1 555).2.2 = false ∧
      (raceClaim exStQueued 1 555).1 = exStQueued) ∧
    ((raceClaim exStPending 1 555).2.1 = true ∧
      (raceClaim exStPending 1 555).2.2 = true ∧
      (raceClaim exStPending 1 555).1.queue.map QueueTask.status = ["processing"]) := by
  decide

/-- C3 witness: the amended theorem applied to the concrete one-task
state. -/
theorem C3_witness :
    exStQueued.queue = [exTaskQueued] ∧ exTaskQueued.document_id = 1 ∧
    exTaskQueued.status = "queued" ∧
    (raceClaim exStQueued 1 555).2.1 = false ∧
    (raceClaim exStQueued 1 555).2.2 = false ∧
    (raceClaim exStQueued 1 555).1 = exStQueued := by
  have h := (C3_claim_is_read_then_write exStQueued 1 555 exTaskQueued
    (by decide) (by decide)).1 (by decide)
  exact ⟨by decide, by decide, by decide, h.1, h.2.1, h.2.2⟩

/-- C5 amended: the plaintext buffer is zeroed exactly on the success
path — `fileBytes.fill(0)` runs only after the completion update, so
every failure or fault path returns from the catch block without
scrubbing — and the raw DEK (a hex string) is never zeroized on any
path. -/
theorem C5_scrub_only_on_success (env : Option (List Nat)) (st : DBState)
    (documentId : Nat) (ext : ExtOutcomes) (ent : Entropy) (now : Nat) :
    ((processDocument env st documentId ext ent now).plaintextScrubbed = true ↔
      (processDocument env st documentId ext ent now).response.isOk = true) ∧
    (processDocument env st documentId ext ent now).dekScrubbed = false := by
  rcases hsel : selectClaim st documentId with _ | q
  · simp [processDocument, hsel, Response.isOk]
  · rcases hdoc : (claimUpdate st q.id now).documents.find? (fun d => d.id == documentId)
      with _ | doc
    · simp [processDocument, hsel, hdoc, Response.isOk]
    · rcases hdl : ext.download with _ | m1
      · rcases hlook : storeLookup (claimUpdate st q.id now).plaintextStore doc.file_path
          with _ | fileBytes
        · simp [processDocument, hsel, hdoc, hdl, hlook, Response.isOk]
        · rcases hwrap : encryptDEK (kmsMasterKey env) ent.wrapIv (generateDEK ent.dekRnd)
            with _ | w
          · simp [processDocument, hsel, hdoc, hdl, hlook, hwrap, Response.isOk]
          · rcases hki : ext.keyInsert with _ | m2
            · rcases hef : encryptFile fileBytes (generateDEK ent.dekRnd) ent.fileIv
                with _ | er
              · simp [processDocument, hsel, hdoc, hdl, hlook, hwrap, hki, hef,
                  Response.isOk]
              · rcases hup : ext.upload with _ | m3
                · rcases hmi : ext.metaInsert with _ | m4
                  · simp [processDocument, hsel, hdoc, hdl, hlook, hwrap, hki, hef,
                      hup, hmi, Response.isOk]
                  · simp [processDocument, hsel, hdoc, hdl, hlook, hwrap, hki, hef,
                      hup, hmi, Response.isOk]
                · simp [processDocument, hsel, hdoc, hdl, hlook, hwrap, hki, hef,
                    hup, Response.isOk]
            · simp [processDocument, hsel, hdoc, hdl, hlook, hwrap, hki, Response.isOk]
      · simp [processDocument, hsel, hdoc, hdl, Response.isOk]

/-- C5 counterexample: a failure after the plaintext buffer is live (the
key-record insert is rejected) returns without zeroing the buffer, and
even the fully successful run never zeroizes the raw DEK. -/
theorem C5_counterexample :
    (processDocument none exStPending 1 exExtKeyFail exEnt 555).response.isOk = false ∧
    (processDocument none exStPending 1 exExtKeyFail exEnt 555).plaintextScrubbed = false ∧
    (processDocument none exStPending 1 exExtOk exEnt 555).response.isOk = true ∧
    (processDocument none exStPending 1 exExtOk exEnt 555).dekScrubbed = false := by
  decide

/-- C1 amended: every failure in steps 1-6 makes the handler return an
error response with a non-empty message, leaves the Document rows (hence
their statuses) untouched and creates no `document_encryption` record —
but the catch block performs no queue write: the claimed task keeps the
status it had when the failure hit (`processing` after the claim update,
its prior status before it), it is never transitioned to `failed`, and
`error_message` is never set. -/
theorem C1_failure_leaves_task_unfailed (env : Option (List Nat)) (st : DBState)
    (documentId : Nat) (ext : ExtOutcomes) (ent : Entropy) (now : Nat) (m : String)
    (hq_err : ∀ t ∈ st.queue, t.error_message = none)
    (hq_st : ∀ t ∈ st.queue, t.status ≠ "failed")
    (hfail : (processDocument env st documentId ext ent now).response = .err m) :
    m ≠ "" ∧
    (processDocument env st documentId ext ent now).db.documents = st.documents ∧
    (processDocument env st documentId ext ent now).db.document_encryption
      = st.document_encryption ∧
    (∀ t ∈ (processDocument env st documentId ext ent now).db.queue,
      t.error_message = none ∧ t.status ≠ "failed") := by
  rcases hsel : selectClaim st documentId with _ | q
  · simp only [processDocument, hsel] at hfail ⊢
    injection hfail with hm
    subst hm
    exact ⟨by decide, trivial, trivial, fun t ht => ⟨hq_err t ht, hq_st t ht⟩⟩
  · rcases hdoc : (claimUpdate st q.id now).documents.find? (fun d => d.id == documentId)
      with _ | doc
    · simp only [processDocument, hsel, hdoc] at hfail ⊢
      injection hfail with hm
      subst hm
      exact ⟨by decide, rfl, rfl, claimUpdate_queue_prop hq_err hq_st⟩
    · rcases hdl : ext.download with _ | m1
      · rcases hlook : storeLookup (claimUpdate st q.id now).plaintextStore doc.file_path
          with _ | fileBytes
        · simp only [processDocument, hsel, hdoc, hdl, hlook] at hfail ⊢
          injection hfail with hm
          subst hm
          exact ⟨by decide, rfl, rfl, claimUpdate_queue_prop hq_err hq_st⟩
        · rcases hwrap : encryptDEK (kmsMasterKey env) ent.wrapIv (generateDEK ent.dekRnd)
            with _ | w
          · simp only [processDocument, hsel, hdoc, hdl, hlook, hwrap] at hfail ⊢
            injection hfail with hm
            subst hm
            exact ⟨by decide, rfl, rfl, claimUpdate_queue_prop hq_err hq_st⟩
          · rcases hki : ext.keyInsert with _ | m2
            · rcases hef : encryptFile fileBytes (generateDEK ent.dekRnd) ent.fileIv
                with _ | er
              · simp only [processDocument, hsel, hdoc, hdl, hlook, hwrap, hki, hef]
                  at hfail ⊢
                injection hfail with hm
                subst hm
                exact ⟨by decide, rfl, rfl, claimUpdate_queue_prop hq_err hq_st⟩
              · rcases hup : ext.upload with _ | m3
                · rcases hmi : ext.metaInsert with _ | m4
                  · simp only [processDocument, hsel, hdoc, hdl, hlook, hwrap, hki, hef,
                      hup, hmi] at hfail
                    cases hfail
                  · simp only [processDocument, hsel, hdoc, hdl, hlook, hwrap, hki, hef,
                      hup, hmi] at hfail ⊢
                    injection hfail with hm
                    subst hm
                    exact ⟨append_ne_empty_left m4 (by decide), rfl, rfl,
                      claimUpdate_queue_prop hq_err hq_st⟩
                · simp only [processDocument, hsel, hdoc, hdl, hlook, hwrap, hki, hef,
                    hup] at hfail ⊢
                  injection hfail with hm
                  subst hm
                  exact ⟨append_ne_empty_left m3 (by decide), rfl, rfl,
                    claimUpdate_queue_prop hq_err hq_st⟩
            · simp only [processDocument, hsel, hdoc, hdl, hlook, hwrap, hki]
                at hfail ⊢
              injection hfail with hm
              subst hm
              exact ⟨append_ne_empty_left m2 (by decide), rfl, rfl,
                claimUpdate_queue_prop hq_err hq_st⟩
      · simp only [processDocument, hsel, hdoc, hdl] at hfail ⊢
        injection hfail with hm
        subst hm
        exact ⟨append_ne_empty_left m1 (by decide), rfl, rfl,
          claimUpdate_queue_prop hq_err hq_st⟩

/-- C1 counterexample: the spec's own scenario — the storage download
fails on a claimed task — ends with the task still in `processing` with
`error_message` unset, not in `failed` with a captured message; the
Document status is unchanged and no metadata row exists, but the
task-side obligation of the claim is violated. -/
theorem C1_counterexample :
    (processDocument none exStPending 1 exExtDownloadFail exEnt 555).response
      = Response.err "File download failed: simulated I/O error" ∧
    (processDocument none exStPending 1 exExtDownloadFail exEnt 555).db.queue.map
      QueueTask.status = ["processing"] ∧
    (∀ t ∈ (processDocument none exStPending 1 exExtDownloadFail exEnt 555).db.queue,
      t.error_message = none) ∧
    (processDocument none exStPending 1 exExtDownloadFail exEnt 555).db.documents
      = exStPending.documents ∧
    (processDocument none exStPending 1 exExtDownloadFail exEnt 555).db.document_encryption
      = [] := by
  decide

/-- C1 witness: the amended theorem applied to the concrete failing
download run. -/
theorem C1_witness :
    (∀ t ∈ exStPending.queue, t.error_message = none) ∧
    (∀ t ∈ exStPending.queue, t.status ≠ "failed") ∧
    (processDocument none exStPending 1 exExtDownloadFail exEnt 555).response
      = .err "File download failed: simulated I/O error" ∧
    "File download failed: simulated I/O error" ≠ "" ∧
    (processDocument none exStPending 1 exExtDownloadFail exEnt 555).db.documents
      = exStPending.documents ∧
    (processDocument none exStPending 1 exExtDownloadFail exEnt 555).db.document_encryption
      = exStPending.document_encryption ∧
    (∀ t ∈ (processDocument none exStPending 1 exExtDownloadFail exEnt 555).db.queue,
      t.error_message = none ∧ t.status ≠ "failed") := by
  have h := C1_failure_leaves_task_unfailed none exStPending 1 exExtDownloadFail exEnt 555
    "File download failed: simulated I/O error" (by decide) (by decide) (by decide)
  exact ⟨by decide, by decide, by decide, h.1, h.2.1, h.2.2.1, h.2.2.2⟩

/-- C4: the handler inserts the `document_encryption` row strictly before
flipping the document's status to `encrypted`, so if the
metadata-before-status invariant holds when a run starts, it holds in
every state an external reader can observe during the run and in the
final state: a document seen as `encrypted` always has a metadata row,
while metadata may exist ahead of the status flip. -/
theorem C4_metadata_before_status (env : Option (List Nat)) (st : DBState)
    (documentId : Nat) (ext : ExtOutcomes) (ent : Entropy) (now : Nat)
    (hinv : MetaInv st) :
    (∀ s ∈ (processDocument env st documentId ext ent now).trace, MetaInv s) ∧
    MetaInv (processDocument env st documentId ext ent now).db := by
  rcases hsel : selectClaim st documentId with _ | q
  · simp only [processDocument, hsel]
    exact ⟨by simp, hinv⟩
  · rcases hdoc : (claimUpdate st q.id now).documents.find? (fun d => d.id == documentId)
      with _ | doc
    · simp only [processDocument, hsel, hdoc]
      refine ⟨?_, hinv⟩
      intro s hs
      rw [List.mem_singleton] at hs
      subst hs
      exact hinv
    · rcases hdl : ext.download with _ | m1
      · rcases hlook : storeLookup (claimUpdate st q.id now).plaintextStore doc.file_path
          with _ | fileBytes
        · simp only [processDocument, hsel, hdoc, hdl, hlook]
          refine ⟨?_, hinv⟩
          intro s hs
          rw [List.mem_singleton] at hs
          subst hs
          exact hinv
        · rcases hwrap : encryptDEK (kmsMasterKey env) ent.wrapIv (generateDEK ent.dekRnd)
            with _ | w
          · simp only [processDocument, hsel, hdoc, hdl, hlook, hwrap]
            refine ⟨?_, hinv⟩
            intro s hs
            rw [List.mem_singleton] at hs
            subst hs
            exact hinv
          · rcases hki : ext.keyInsert with _ | m2
            · rcases hef : encryptFile fileBytes (generateDEK ent.dekRnd) ent.fileIv
                with _ | er
              · simp only [processDocument, hsel, hdoc, hdl, hlook, hwrap, hki, hef]
                refine ⟨?_, hinv⟩
                intro s hs
                simp only [List.mem_cons, List.not_mem_nil, or_false] at hs
                rcases hs with rfl | rfl <;> exact hinv
              · rcases hup : ext.upload with _ | m3
                · rcases hmi : ext.metaInsert with _ | m4
                  · simp only [processDocument, hsel, hdoc, hdl, hlook, hwrap, hki, hef,
                      hup, hmi]
                    have hmeta : MetaInv { claimUpdate st q.id now with
                        encryption_keys := (claimUpdate st q.id now).encryption_keys ++
                          [{ id := (claimUpdate st q.id now).encryption_keys.length
                           , key_id := "key_" ++ toString documentId ++ "_" ++ toString now
                           , encrypted_dek := w, created_by := none }]
                        , encryptedStore := (claimUpdate st q.id now).encryptedStore ++
                          [("encrypted/" ++ toString documentId ++ "_" ++ toString now
                            ++ ".enc", er.encryptedData)]
                        , document_encryption :=
                          (claimUpdate st q.id now).document_encryption ++
                          [{ document_id := documentId
                           , encryption_key_id :=
                              (claimUpdate st q.id now).encryption_keys.length
                           , encrypted_path := "encrypted/" ++ toString documentId ++ "_"
                              ++ toString now ++ ".enc"
                           , iv := er.iv, auth_tag := er.authTag }] } := by
                      exact MetaInv_meta_append _ hinv
                    have hrow : ∃ m ∈ (claimUpdate st q.id now).document_encryption ++
                        [{ document_id := documentId
                         , encryption_key_id :=
                            (claimUpdate st q.id now).encryption_keys.length
                         , encrypted_path := "encrypted/" ++ toString documentId ++ "_"
                            ++ toString now ++ ".enc"
                         , iv := er.iv, auth_tag := er.authTag }],
                        m.document_id = documentId := by
                      refine ⟨_, List.mem_append_right _ (List.mem_singleton.mpr rfl), rfl⟩
                    have hstatus := @MetaInv_docStatusUpdate _ documentId now hmeta hrow
                    refine ⟨?_, hstatus⟩
                    intro s hs
                    simp only [List.mem_cons, List.not_mem_nil, or_false] at hs
                    rcases hs with rfl | rfl | rfl | rfl | rfl | rfl
                    · exact hinv
                    · exact hinv
                    · exact hinv
                    · exact hmeta
                    · exact hstatus
                    · exact hstatus
                  · simp only [processDocument, hsel, hdoc, hdl, hlook, hwrap, hki, hef,
                      hup, hmi]
                    refine ⟨?_, hinv⟩
                    intro s hs
                    simp only [List.mem_cons, List.not_mem_nil, or_false] at hs
                    rcases hs with rfl | rfl | rfl <;> exact hinv
                · simp only [processDocument, hsel, hdoc, hdl, hlook, hwrap, hki, hef, hup]
                  refine ⟨?_, hinv⟩
                  intro s hs
                  simp only [List.mem_cons, List.not_mem_nil, or_false] at hs
                  rcases hs with rfl | rfl <;> exact hinv
            · simp only [processDocument, hsel, hdoc, hdl, hlook, hwrap, hki]
              refine ⟨?_, hinv⟩
              intro s hs
              rw [List.mem_singleton] at hs
              subst hs
              exact hinv
      · simp only [processDocument, hsel, hdoc, hdl]
        refine ⟨?_, hinv⟩
        intro s hs
        rw [List.mem_singleton] at hs
        subst hs
        exact hinv

/-- C4 witness: a complete successful run on a concrete state where the
invariant initially holds; every observable intermediate state and the
final state keep it. -/
theorem C4_witness :
    MetaInv exStPending ∧
    (∀ s ∈ (processDocument none exStPending 1 exExtOk exEnt 555).trace, MetaInv s) ∧
    MetaInv (processDocument none exStPending 1 exExtOk exEnt 555).db := by
  have h := C4_metadata_before_status none exStPending 1 exExtOk exEnt 555 (by decide)
  exact ⟨by decide, h.1, h.2⟩

/-- C6: `wrapDEK` (`encryptDEK`) fails exactly when the configured master
secret is malformed — its UTF-8 encoding after the
`padEnd(32, '0').slice(0, 32)` normalization does not have the 32-byte
length AES-256 requires; for every well-formed (ASCII) master secret it
succeeds and returns a self-describing wrapped DEK carrying its own
nonce (the `iv` field holds the hex of the fresh wrap IV). -/
theorem C6_encryptDEK_master_secret (mk wrapIv dek : List Nat) :
    (encryptDEK mk wrapIv dek = none ↔
      (utf8Encode (normalizeMasterKey mk)).length ≠ 32) ∧
    ((∀ c ∈ mk, c < 128) →
      ∃ w, encryptDEK mk wrapIv dek = some w ∧ w.iv = uint8ArrayToHex wrapIv) := by
  have h32 : 32 ≤ (utf8Encode (normalizeMasterKey mk)).length := by
    have h := length_le_utf8Encode (normalizeMasterKey mk)
    rw [normalizeMasterKey_length] at h
    exact h
  constructor
  · by_cases hv : validAesKeyLen (utf8Encode (normalizeMasterKey mk))
    · have hlen : (utf8Encode (normalizeMasterKey mk)).length = 32 := by
        rcases hv with h16 | h24 | h32' <;> omega
      simp [encryptDEK, subtleEncrypt_eq_some hv, hlen]
    · have hlen : (utf8Encode (normalizeMasterKey mk)).length ≠ 32 := by
        intro heq
        exact hv (Or.inr (Or.inr heq))
      simp [encryptDEK, subtleEncrypt, hv, hlen]
  · intro hmk
    have hasc : ∀ c ∈ normalizeMasterKey mk, c < 128 := normalizeMasterKey_ascii hmk
    have hid : utf8Encode (normalizeMasterKey mk) = normalizeMasterKey mk :=
      utf8Encode_ascii hasc
    have hv : validAesKeyLen (utf8Encode (normalizeMasterKey mk)) := by
      right; right
      rw [hid, normalizeMasterKey_length]
    simp only [encryptDEK]
    rw [subtleEncrypt_eq_some hv]
    exact ⟨_, rfl, rfl⟩

/-- C6 witness: with the source's own fallback master secret (ASCII), a
wrap succeeds, the failure condition of the iff is false, and the wrapped
value carries the IV. -/
theorem C6_witness :
    (¬ encryptDEK defaultMasterKey (List.range 12) (strCodes "deadbeef") = none) ∧
    (∀ c ∈ defaultMasterKey, c < 128) ∧
    (∃ w, encryptDEK defaultMasterKey (List.range 12) (strCodes "deadbeef") = some w ∧
      w.iv = uint8ArrayToHex (List.range 12)) := by
  have h := C6_encryptDEK_master_secret defaultMasterKey (List.range 12) (strCodes "deadbeef")
  refine ⟨?_, by decide, h.2 (by decide)⟩
  rw [h.1]
  decide

/-- C7: `unwrapDEK` inverts `wrapDEK` — for every generated DEK (hex of
any 32 CSPRNG bytes) and every ASCII master secret, decrypting the
wrapped value (through the two-field wrapping, the hex serialization and
the modelled AES-GCM under the normalized master key) returns the DEK. -/
theorem C7_decryptDEK_encryptDEK (mk wrapIv rnd : List Nat)
    (hmk : ∀ c ∈ mk, c < 128) (hiv : ∀ b ∈ wrapIv, b < 256)
    (hrnd : ∀ b ∈ rnd, b < 256) :
    ∃ w, encryptDEK mk wrapIv (generateDEK rnd) = some w ∧
      decryptDEK mk w = some (generateDEK rnd) := by
  have hasc : ∀ c ∈ normalizeMasterKey mk, c < 128 := normalizeMasterKey_ascii hmk
  have hid : utf8Encode (normalizeMasterKey mk) = normalizeMasterKey mk :=
    utf8Encode_ascii hasc
  have hv : validAesKeyLen (utf8Encode (normalizeMasterKey mk)) := by
    right; right
    rw [hid, normalizeMasterKey_length]
  have hdekAscii : ∀ c ∈ generateDEK rnd, c < 128 :=
    fun c hc => isLowerHexChar_ascii (uint8ArrayToHex_hex hrnd c hc)
  have hdekId : utf8Encode (generateDEK rnd) = generateDEK rnd := utf8Encode_ascii hdekAscii
  have hdek256 : ∀ b ∈ utf8Encode (generateDEK rnd), b < 256 := by
    rw [hdekId]
    exact fun b hb => by have := hdekAscii b hb; omega
  obtain ⟨out, hout⟩ : ∃ out,
      subtleEncrypt (utf8Encode (normalizeMasterKey mk)) wrapIv
        (utf8Encode (generateDEK rnd)) = some out :=
    ⟨_, subtleEncrypt_eq_some hv⟩
  have hout256 : ∀ b ∈ out, b < 256 := subtleEncrypt_lt256 hv hout
  refine ⟨{ encrypted := uint8ArrayToHex out, iv := uint8ArrayToHex wrapIv }, ?_, ?_⟩
  · simp only [encryptDEK]
    rw [hout]
  · simp only [decryptDEK]
    rw [hexToUint8Array_uint8ArrayToHex hiv, hexToUint8Array_uint8ArrayToHex hout256,
      subtleDecrypt_subtleEncrypt hv hdek256 hout, hdekId]
    show some (utf8Decode (generateDEK rnd)) = some (generateDEK rnd)
    rw [utf8Decode_ascii hdekAscii]

/-- C7 witness: a concrete round trip through wrap and unwrap. -/
theorem C7_witness :
    (∀ c ∈ defaultMasterKey, c < 128) ∧ (∀ b ∈ List.range 12, b < 256) ∧
    (∀ b ∈ List.range 32, b < 256) ∧
    ∃ w, encryptDEK defaultMasterKey (List.range 12) (generateDEK (List.range 32)) = some w ∧
      decryptDEK defaultMasterKey w = some (generateDEK (List.range 32)) :=
  ⟨by decide, by decide, by decide,
    C7_decryptDEK_encryptDEK defaultMasterKey (List.range 12) (List.range 32)
      (by decide) (by decide) (by decide)⟩

/-- C8: `generateDEK` turns the 32 bytes drawn from the CSPRNG into a
64-character lowercase-hex key string; the hex decoding recovers exactly
the 32 entropy bytes (the 256-bit key is the random draw, nothing less),
and the operation is total given entropy — its only failure mode is the
random source itself. -/
theorem C8_generateDEK_format (rnd : List Nat) (h1 : rnd.length = 32)
    (h2 : ∀ b ∈ rnd, b < 256) :
    (generateDEK rnd).length = 64 ∧ (∀ c ∈ generateDEK rnd, isLowerHexChar c) ∧
      hexToUint8Array (generateDEK rnd) = rnd := by
  refine ⟨?_, uint8ArrayToHex_hex h2, hexToUint8Array_uint8ArrayToHex h2⟩
  unfold generateDEK
  rw [uint8ArrayToHex_length, h1]

/-- C8 witness: a concrete 32-byte entropy draw. -/
theorem C8_witness :
    (List.range 32).length = 32 ∧ (∀ b ∈ List.range 32, b < 256) ∧
    (generateDEK (List.range 32)).length = 64 ∧
    (∀ c ∈ generateDEK (List.range 32), isLowerHexChar c) ∧
    hexToUint8Array (generateDEK (List.range 32)) = List.range 32 := by
  have h := C8_generateDEK_format (List.range 32) (by decide) (by decide)
  exact ⟨by decide, by decide, h.1, h.2.1, h.2.2⟩

/-- C9: for every plaintext byte sequence and 64-hex-character DEK,
`encryptFile` succeeds, the returned record carries the fresh injected
12-byte nonce and the fixed 16-byte trailing tag split off from the AEAD
output as separate fields, ciphertext length equals plaintext length, and
nonce and tag are serialized as lowercase hex (24 and 32 characters). -/
theorem C9_encryptFile_fields (data dek fileIv : List Nat)
    (hdek : dek.length = 64) (hiv12 : fileIv.length = 12)
    (hivb : ∀ b ∈ fileIv, b < 256) :
    ∃ r out, subtleEncrypt (hexToUint8Array dek) fileIv data = some out ∧
      encryptFile data dek fileIv = some r ∧
      r.encryptedData = out.take (out.length - 16) ∧
      r.authTag = uint8ArrayToHex (out.drop (out.length - 16)) ∧
      r.encryptedData ++ out.drop (out.length - 16) = out ∧
      r.encryptedData.length = data.length ∧
      r.iv = uint8ArrayToHex fileIv ∧ r.iv.length = 24 ∧ r.authTag.length = 32 ∧
      (∀ c ∈ r.iv, isLowerHexChar c) ∧ (∀ c ∈ r.authTag, isLowerHexChar c) := by
  have hkey : (hexToUint8Array dek).length = 32 := by
    rw [hexToUint8Array_length, hdek]
  have hv : validAesKeyLen (hexToUint8Array dek) := Or.inr (Or.inr hkey)
  obtain ⟨out, hout⟩ : ∃ out, subtleEncrypt (hexToUint8Array dek) fileIv data = some out :=
    ⟨_, subtleEncrypt_eq_some hv⟩
  have hlen : out.length = data.length + 16 := subtleEncrypt_length hv hout
  have h256 : ∀ b ∈ out, b < 256 := subtleEncrypt_lt256 hv hout
  have hdrop256 : ∀ b ∈ out.drop (out.length - 16), b < 256 :=
    fun b hb => h256 b (List.mem_of_mem_drop hb)
  have henc : encryptFile data dek fileIv
      = some { encryptedData := out.take (out.length - 16)
             , iv := uint8ArrayToHex fileIv
             , authTag := uint8ArrayToHex (out.drop (out.length - 16)) } := by
    simp only [encryptFile]
    rw [hout]
  refine ⟨_, out, hout, henc, rfl, rfl, List.take_append_drop _ _, ?_, rfl, ?_, ?_, ?_, ?_⟩
  · rw [List.length_take, hlen]
    omega
  · rw [uint8ArrayToHex_length, hiv12]
  · rw [uint8ArrayToHex_length, List.length_drop, hlen]
    omega
  · exact uint8ArrayToHex_hex hivb
  · exact uint8ArrayToHex_hex hdrop256

/-- C9 witness: a concrete 3-byte plaintext under a concrete DEK. -/
theorem C9_witness :
    (generateDEK (List.range 32)).length = 64 ∧ (List.range 12).length = 12 ∧
    (∀ b ∈ List.range 12, b < 256) ∧
    ∃ r out,
      subtleEncrypt (hexToUint8Array (generateDEK (List.range 32))) (List.range 12)
        [10, 20, 30] = some out ∧
      encryptFile [10, 20, 30] (generateDEK (List.range 32)) (List.range 12) = some r ∧
      r.encryptedData = out.take (out.length - 16) ∧
      r.authTag = uint8ArrayToHex (out.drop (out.length - 16)) ∧
      r.encryptedData ++ out.drop (out.length - 16) = out ∧
      r.encryptedData.length = [10, 20, 30].length ∧
      r.iv = uint8ArrayToHex (List.range 12) ∧ r.iv.length = 24 ∧ r.authTag.length = 32 ∧
      (∀ c ∈ r.iv, isLowerHexChar c) ∧ (∀ c ∈ r.authTag, isLowerHexChar c) :=
  ⟨by decide, by decide, by decide,
    C9_encryptFile_fields [10, 20, 30] (generateDEK (List.range 32)) (List.range 12)
      (by decide) (by decide) (by decide)⟩

/-! ## Claim C10: the provider factory -/

/-- C10: for every provider name other than `openai`/`gemini` under case
folding — unknown and empty names included — `AIProviderFactory.create`
silently returns the OpenAI provider; selection is total and never
raises on an unrecognized name. -/
theorem C10_factory_unknown_defaults_openAI (p : String)
    (h1 : jsToLower p ≠ "openai") (h2 : jsToLower p ≠ "gemini") :
    AIProviderFactory.create p = AIProvider.openAI := by
  unfold AIProviderFactory.create
  rw [if_neg h1, if_neg h2]

/-- C10 witness: the empty name and an unknown name both select OpenAI. -/
theorem C10_witness :
    jsToLower "" ≠ "openai" ∧ jsToLower "" ≠ "gemini" ∧
    AIProviderFactory.create "" = AIProvider.openAI :=
  ⟨by decide, by decide, C10_factory_unknown_defaults_openAI "" (by decide) (by decide)⟩

end JurisGuard
